import Mathlib

/-!
# Verification of the geepNotes storage engine

Shallow embedding of the filesystem-backed note store (model.js, util.js,
stats.js) and proofs about its traversal, filtering, creation, deletion and
statistics operations.

A directory tree is modelled as an inductive `FsNode`: a file with string
content, or a directory holding an ordered association list of named
children (the order models the order `fs.readdir` returns entries in).
Paths are lists of name segments.  JavaScript `Date` parsing is modelled by
an abstract function `jsDate : String → Option Int` (epoch milliseconds,
`none` = `NaN`), since `new Date(s)` is host functionality, not repository
code.
-/

namespace GeepNotes

/-- A filesystem node: a file with raw string content, or a directory with
an ordered list of named children (readdir order). -/
inductive FsNode where
  | file (content : String)
  | dir (entries : List (String × FsNode))

/-- `entry.isDirectory()` for a child node. -/
def FsNode.isDir : FsNode → Bool
  | .file _ => false
  | .dir _ => true

/-- First entry with exactly the given name (exact, case-sensitive lookup,
as the real filesystem resolves a path component). -/
def lookupEntry (es : List (String × FsNode)) (name : String) : Option FsNode :=
  match es with
  | [] => none
  | e :: rest => if e.1 = name then some e.2 else lookupEntry rest name

/-- Replace the node of the first entry with the given name. -/
def replaceEntry (es : List (String × FsNode)) (name : String) (node : FsNode) :
    List (String × FsNode) :=
  match es with
  | [] => []
  | e :: rest =>
    if e.1 = name then (e.1, node) :: rest else e :: replaceEntry rest name node

/-- Remove the first entry with the given name. -/
def removeEntry (es : List (String × FsNode)) (name : String) :
    List (String × FsNode) :=
  match es with
  | [] => []
  | e :: rest => if e.1 = name then rest else e :: removeEntry rest name

/-- Replace the first entry with the given name, or append a new entry. -/
def setEntry (es : List (String × FsNode)) (name : String) (node : FsNode) :
    List (String × FsNode) :=
  match es with
  | [] => [(name, node)]
  | e :: rest =>
    if e.1 = name then (e.1, node) :: rest else e :: setEntry rest name node

/-- Navigate a path from a node; `none` when a component is missing or a
non-final component is a file. -/
def lookupPath : FsNode → List String → Option FsNode
  | node, [] => some node
  | .file _, _ :: _ => none
  | .dir es, name :: rest =>
    match lookupEntry es name with
    | some child => lookupPath child rest
    | none => none

/-- `fs.mkdir(path, recursive: true)`: create the chain of directories named
by the path.  `none` models the error thrown when a path component exists as
a file. -/
def mkdirRec : FsNode → List String → Option FsNode
  | .file _, _ => none
  | .dir es, [] => some (.dir es)
  | .dir es, name :: rest =>
    match lookupEntry es name with
    | some child =>
      match mkdirRec child rest with
      | some child' => some (.dir (replaceEntry es name child'))
      | none => none
    | none =>
      match mkdirRec (.dir []) rest with
      | some child' => some (.dir (es ++ [(name, child')]))
      | none => none

/-- Detach the node at a path (first component of `fs.rename`); `none` when
the path does not exist or names the root. -/
def takeNodeAt : FsNode → List String → Option (FsNode × FsNode)
  | _, [] => none
  | .file _, _ :: _ => none
  | .dir es, name :: rest =>
    match rest with
    | [] =>
      match lookupEntry es name with
      | some n => some (.dir (removeEntry es name), n)
      | none => none
    | _ :: _ =>
      match lookupEntry es name with
      | some child =>
        match takeNodeAt child rest with
        | some p => some (.dir (replaceEntry es name p.1), p.2)
        | none => none
      | none => none

/-- Attach a node at a path (second component of `fs.rename`), overwriting
an existing entry of the same name; `none` when the parent directory is
missing. -/
def addNodeAt : FsNode → List String → FsNode → Option FsNode
  | _, [], _ => none
  | .file _, _ :: _, _ => none
  | .dir es, name :: rest, node =>
    match rest with
    | [] => some (.dir (setEntry es name node))
    | _ :: _ =>
      match lookupEntry es name with
      | some child =>
        match addNodeAt child rest node with
        | some child' => some (.dir (replaceEntry es name child'))
        | none => none
      | none => none

/-- `fs.rmdir(path)`: remove the directory at the path.  Only called on an
empty directory by `deleteEmptyGroup`. -/
def removeDirAt (t : FsNode) (p : List String) : Option FsNode :=
  match takeNodeAt t p with
  | some r => some r.1
  | none => none

/-- `path.relative` style join of segments with the platform separator
(Linux). -/
def joinPath (segs : List String) : String :=
  String.intercalate "/" segs

/-! ## Character-level string primitives

The JavaScript string methods used by the source (`trim`, `replace` over a
character class, `split`, `toLowerCase`, `includes`) are modelled
character-by-character over the string's character list. -/

/-- `s.toLowerCase()`: character-wise lower casing. -/
def toLowerStr (s : String) : String :=
  String.mk (s.data.map Char.toLower)

/-- `s.trim()`: strip leading and trailing whitespace. -/
def jsTrim (s : String) : String :=
  String.mk (((s.data.dropWhile Char.isWhitespace).reverse.dropWhile
    Char.isWhitespace).reverse)

/-- Character-wise replacement, `s.replace(/[...]/g, c)` style. -/
def mapChars (f : Char → Char) (s : String) : String :=
  String.mk (s.data.map f)

/-- `s.split(/[...]/)`: split a character list at separator characters;
like the JavaScript method it keeps empty pieces. -/
def splitChars (p : Char → Bool) : List Char → List (List Char)
  | [] => [[]]
  | c :: rest =>
    match splitChars p rest with
    | [] => if p c then [[], []] else [[c]]
    | g :: gs => if p c then [] :: g :: gs else (c :: g) :: gs

/-! ## Path Resolver: `sanitizeInput` (model.js) -/

/-- Characters replaced by a hyphen in titles:
the regex class in the source. -/
def badTitleChar (c : Char) : Bool :=
  c = '/' || c = '\\' || c = '?' || c = '%' || c = '*' || c = ':' ||
  c = '|' || c = '"' || c = '<' || c = '>'

/-- Characters replaced in group segments: the title set plus a dot. -/
def badGroupChar (c : Char) : Bool :=
  badTitleChar c || c = '.'

/-- Result of `sanitizeInput(title, group)`. -/
structure Sanitized where
  safeTitle : String
  safeGroupParts : List String
deriving DecidableEq

/-- `sanitizeInput`: trim the title and replace unsafe characters with a
hyphen; split the group on slashes and backslashes, replace unsafe
characters (including dots) in each segment, and drop empty segments. -/
def sanitizeInput (title group : String) : Sanitized :=
  { safeTitle := mapChars (fun c => if badTitleChar c then '-' else c) (jsTrim title)
  , safeGroupParts :=
      ((splitChars (fun c => c = '/' || c = '\\') group.data).map
          (fun part => String.mk (part.map (fun c => if badGroupChar c then '-' else c)))).filter
        (fun p => p ≠ "") }

/-! ## Traversal Engine: `findJsonFiles` (model.js) -/

/-- `path.extname(name).toLowerCase()`: lower-cased extension from the last
dot, empty when there is no dot or the only dot begins the name. -/
def extnameLower (name : String) : String :=
  let cs := name.toList
  let idxs := (List.range cs.length).filter (fun i => cs.get? i = some '.')
  match idxs.getLast? with
  | none => ""
  | some 0 => ""
  | some i => String.mk ((cs.drop i).map Char.toLower)

/-- A file discovered by `findJsonFiles`: the directory segments of its
containing directory relative to the base, and its file name.  The source's
`group` field is `joinPath dirSegs` (or `.` at the root) and its
`relativePath` is `joinPath (dirSegs ++ [name])`. -/
structure FoundFile where
  dirSegs : List String
  name : String
deriving DecidableEq

mutual

/-- `findJsonFiles(dir, baseDir)`: depth-first enumeration of `.json` files.
`atBase` is `dir === baseDir`; a directory entry named `trash` is skipped
only when `atBase` holds. -/
def findJsonFiles : FsNode → Bool → List String → List FoundFile
  | .file _, _, _ => []
  | .dir entries, atBase, segs => findJsonFilesEntries entries atBase segs

/-- The entry loop of `findJsonFiles`. -/
def findJsonFilesEntries : List (String × FsNode) → Bool → List String → List FoundFile
  | [], _, _ => []
  | (name, child) :: rest, atBase, segs =>
    let fromThis :=
      match child with
      | .dir sub =>
        if atBase && name = "trash" then []
        else findJsonFiles (.dir sub) false (segs ++ [name])
      | .file _ =>
        if extnameLower name = ".json" then [⟨segs, name⟩] else []
    fromThis ++ findJsonFilesEntries rest atBase segs

end

/-- The enumeration step of `getAllNotes(filters, viewTrash)`: pick the root
by `viewTrash` and call `findJsonFiles(notesDir, notesDir)` — the chosen
root is both the start and the base directory. -/
def getAllNotesFiles (live trash : FsNode) (viewTrash : Bool) : List FoundFile :=
  findJsonFiles (if viewTrash then trash else live) true []

/-! ## Document Store: `parseDate` and the filter predicate (model.js)

JavaScript date parsing (`new Date(s)`) is host functionality; it is
abstracted as `jsDate : String → Option Int` giving the epoch milliseconds,
`none` when the result is `NaN`. -/

/-- The regex test `^\d\x7b4\x7d-\d\x7b2\x7d-\d\x7b2\x7d$` for `YYYY-MM-DD`. -/
def isYmdFormat (s : String) : Bool :=
  let cs := s.toList
  cs.length = 10 && (cs.take 4).all Char.isDigit && cs.get? 4 = some '-' &&
  ((cs.drop 5).take 2).all Char.isDigit && cs.get? 7 = some '-' &&
  ((cs.drop 8).take 2).all Char.isDigit

/-- `parseDate(dateString)`: `null` for a falsy input (absent or empty
string); a `YYYY-MM-DD` string gets `T00:00:00.000Z` appended before
parsing; an unparseable non-empty string throws a `TypeError`
(`Except.error`). -/
def parseDate (jsDate : String → Option Int) (dateString : Option String) :
    Except String (Option Int) :=
  match dateString with
  | none => .ok none
  | some s =>
    if s = "" then .ok none
    else
      let s2 := if isYmdFormat s then s ++ "T00:00:00.000Z" else s
      match jsDate s2 with
      | none => .error ("Invalid date format: " ++ s2 ++ ". Use ISO 8601 or YYYY-MM-DD.")
      | some t => .ok (some t)

/-- The latest-version projection of a parsed note document, as built by
`getAllNotes` before filtering. -/
structure NoteProj where
  title : String
  content : String
  group : String
  createdDate : Option String
  modifiedDate : Option String
  relativePath : String
deriving DecidableEq

/-- The filter criteria accepted by `getAllNotes`. -/
structure NoteFilters where
  groups : Option (List String)
  createdBefore : Option String
  createdAfter : Option String
  titles : Option (List String)
deriving DecidableEq

/-- `g.replace(/[\\/]/g, path.sep)` with the Linux separator. -/
def normalizeSeps (g : String) : String :=
  mapChars (fun c => if c = '\\' then '/' else c) g

/-- `haystack.includes(needle)` on strings. -/
def jsIncludes (haystack needle : String) : Bool :=
  (List.range (haystack.data.length + 1)).any
    (fun i => needle.data.isPrefixOf (haystack.data.drop i))

/-- The per-note predicate of the `notesData.filter` call in `getAllNotes`:
group membership, then the created-date window, then title substrings.
A note whose `createdDate` is present but unparseable has the date filter
skipped (the `console.warn` branch); a note with an absent or empty
`createdDate` is dropped when a date bound is active. -/
def keepNote (jsDate : String → Option Int) (groups : Option (List String))
    (beforeDate afterDate : Option Int) (titles : Option (List String))
    (note : NoteProj) : Bool :=
  let keep1 : Bool :=
    match groups with
    | some gs => if gs.length > 0 then (gs.map normalizeSeps).contains note.group else true
    | none => true
  let keep2 : Bool :=
    if keep1 then
      match note.createdDate with
      | some cd =>
        if cd ≠ "" then
          match jsDate cd with
          | none => true
          | some t =>
            let k1 : Bool :=
              match beforeDate with
              | some b => decide (t < b)
              | none => true
            if k1 then
              match afterDate with
              | some a => decide (a < t)
              | none => true
            else false
        else beforeDate.isNone && afterDate.isNone
      | none => beforeDate.isNone && afterDate.isNone
    else false
  if keep2 then
    match titles with
    | some ts =>
      if ts.length > 0 then
        ts.any (fun ft => jsIncludes (toLowerStr note.title) (toLowerStr ft))
      else true
    | none => true
  else false

/-- The filtering stage of `getAllNotes`: with no filters the projections
pass through; otherwise both date bounds are parsed (an invalid one aborts
the call) and the notes are filtered by `keepNote`. -/
def applyFilters (jsDate : String → Option Int) (filters : Option NoteFilters)
    (notesData : List NoteProj) : Except String (List NoteProj) :=
  match filters with
  | none => .ok notesData
  | some f =>
    match parseDate jsDate f.createdBefore with
    | .error e => .error e
    | .ok beforeDate =>
      match parseDate jsDate f.createdAfter with
      | .error e => .error e
      | .ok afterDate =>
        .ok (notesData.filter (keepNote jsDate f.groups beforeDate afterDate f.titles))

/-! ## Path Resolver: `determineTargetPath` (model.js) -/

/-- `entries.find(entry => entry.isDirectory() && entry.name.toLowerCase()
=== part.toLowerCase())?.name`: the name of the first directory entry whose
name matches the segment case-insensitively. -/
def findDirCaseInsensitive (es : List (String × FsNode)) (part : String) :
    Option String :=
  match es.find? (fun e => e.2.isDir && toLowerStr e.1 = toLowerStr part) with
  | some e => some e.1
  | none => none

/-- The loop of `determineTargetPath`: `cur` is the node at the current
path (`none` when `readdir(currentPath)` would throw — the segment is then
used as-is, matching both the `ENOENT` and the logged non-`ENOENT`
branches). -/
def resolveParts : Option FsNode → List String → List String
  | _, [] => []
  | cur, part :: rest =>
    let foundDirName : Option String :=
      match cur with
      | some (.dir es) => findDirCaseInsensitive es part
      | _ => none
    let partToUse := foundDirName.getD part
    let next : Option FsNode :=
      match cur with
      | some (.dir es) => lookupEntry es partToUse
      | _ => none
    partToUse :: resolveParts next rest

/-- `determineTargetPath(baseDir, safeGroupParts)`: the resolved
`actualPathParts` (the target directory is the base joined with them, and
`finalGroupPath` is their joined form). -/
def determineTargetPath (baseDir : FsNode) (safeGroupParts : List String) :
    List String :=
  resolveParts (some baseDir) safeGroupParts

/-! ## Document Store: `prepareNoteData` (model.js) -/

/-- One entry of a document's `versions` array. -/
structure Version where
  content : String
  createdDate : String
deriving DecidableEq

/-- A parsed note document.  `versions = none` models a JSON document whose
`versions` member is absent or not an array; `createdDate = none` one with
no root `createdDate`. -/
structure NoteDoc where
  title : String
  group : String
  relativePath : String
  createdDate : Option String
  versions : Option (List Version)
deriving DecidableEq

/-- Outcome of `fs.readFile` + `JSON.parse` on the target path. -/
inductive ReadFileResult where
  | ok (doc : NoteDoc)
  | enoent
  | syntaxError
  | otherError
deriving DecidableEq

/-- `prepareNoteData(filePath, safeTitle, finalGroupPath, relativePath,
content)`: on a successfully parsed existing document, prepend a new
version and overwrite `title`, `group` and `relativePath` leaving the root
`createdDate` untouched; on a missing or unparseable file, build a fresh
document; rethrow any other read error.  `now` is
`new Date().toISOString()`. -/
def prepareNoteData (read : ReadFileResult) (safeTitle finalGroupPath relativePath : String)
    (content : Option String) (now : String) : Except Unit NoteDoc :=
  let newVersion : Version := ⟨content.getD "", now⟩
  match read with
  | .ok doc =>
    let priorVersions :=
      match doc.versions with
      | some l => l
      | none => []
    .ok { doc with
          versions := some (newVersion :: priorVersions)
        , title := safeTitle
        , group := finalGroupPath
        , relativePath := relativePath }
  | .enoent => .ok ⟨safeTitle, finalGroupPath, relativePath, some now, some [newVersion]⟩
  | .syntaxError => .ok ⟨safeTitle, finalGroupPath, relativePath, some now, some [newVersion]⟩
  | .otherError => .error ()

/-! ## Document Store: `createNotes` (model.js)

The per-note filesystem work after validation (resolve the target path,
`mkdir`, read-modify-write of the document) is abstracted as an oracle
`io : InputNote → Except Unit String` returning the note's resolved
`finalGroupPath` on success and an arbitrary thrown error otherwise; the
`catch` of the per-note promise turns any such error into a skip. -/

/-- One element of the request body array: `title`, `group` and `content`
may each be absent. -/
structure InputNote where
  title : Option String
  group : Option String
  content : Option String
deriving DecidableEq

/-- One element of the `processed` list. -/
structure ProcessedNote where
  title : String
  group : String
deriving DecidableEq

/-- The value returned by `createNotes`. -/
structure CreateNotesResult where
  message : String
  processed : List ProcessedNote
  skipped : List (Option String × Option String)
deriving DecidableEq

/-- The per-note dispatch of `createNotes`: a note with an empty sanitized
title is skipped; a note whose first group segment is `trash`
(case-insensitively) is skipped; otherwise the filesystem work either
succeeds (processed) or throws (skipped). -/
def createNotesGo (io : InputNote → Except Unit String) :
    List InputNote → List ProcessedNote × List InputNote
  | [] => ([], [])
  | note :: rest =>
    let acc := createNotesGo io rest
    let s := sanitizeInput (note.title.getD "") (note.group.getD "")
    if s.safeTitle = "" then (acc.1, note :: acc.2)
    else if s.safeGroupParts.head?.map toLowerStr = some "trash" then
      (acc.1, note :: acc.2)
    else
      match io note with
      | .ok finalGroupPath => (⟨s.safeTitle, finalGroupPath⟩ :: acc.1, acc.2)
      | .error _ => (acc.1, note :: acc.2)

/-- `createNotes(notes)`: process every input note, collecting `processed`
and `skipped`, and always return a result object. -/
def createNotes (io : InputNote → Except Unit String) (notes : List InputNote) :
    CreateNotesResult :=
  let r := createNotesGo io notes
  { message := toString r.1.length ++ " note(s) processed successfully. " ++
      toString r.2.length ++ " skipped."
  , processed := r.1
  , skipped := r.2.map (fun n => (n.title, n.group)) }

/-! ## Lifecycle Manager: `deleteNote` (model.js) -/

/-- The two ways POSIX path resolution fails: a component is missing
(`ENOENT`), or a non-final component is a regular file (`ENOTDIR`). -/
inductive PathError where
  | enoent
  | enotdir
deriving DecidableEq

/-- POSIX path resolution, shared by the models of `fs.access` and
`fs.readdir`: walk the components; descending through a regular file is
`ENOTDIR`, a missing component is `ENOENT`, otherwise the final node is
returned (`fs.access` succeeds exactly when this does). -/
def resolvePath : FsNode → List String → Except PathError FsNode
  | node, [] => .ok node
  | .file _, _ :: _ => .error .enotdir
  | .dir es, name :: rest =>
    match lookupEntry es name with
    | some child => resolvePath child rest
    | none => .error .enoent

/-- The three throw sites of `deleteNote`. -/
inductive DeleteNoteError where
  | invalidTitle
  | notFound
  | moveFailed
deriving DecidableEq

/-- Result of a `deleteNote` call together with the final state of both
trees (errors leave the trees as they were when thrown). -/
structure DeleteNoteOutcome where
  result : Except DeleteNoteError Unit
  notes : FsNode
  trash : FsNode

/-- `deleteNote(title, group)`: sanitize, resolve the live path, check the
file exists (`fs.access`), ensure the mirrored trash directory exists
(`fs.mkdir` recursive) and move the file (`fs.rename`).  In the `catch`,
only an `ENOENT` code maps to the not-found error; any other failure —
including the `ENOTDIR` raised by `fs.access` when a path component is a
regular file — maps to the generic move failure. -/
def deleteNote (notes trash : FsNode) (title group : Option String) :
    DeleteNoteOutcome :=
  let s := sanitizeInput (title.getD "") (group.getD "")
  if s.safeTitle = "" then ⟨.error .invalidTitle, notes, trash⟩
  else
    let actualParts := determineTargetPath notes s.safeGroupParts
    let originalFilePath := actualParts ++ [s.safeTitle ++ ".json"]
    let trashFilePath := actualParts ++ [s.safeTitle ++ ".json"]
    match resolvePath notes originalFilePath with
    | .error .enoent => ⟨.error .notFound, notes, trash⟩
    | .error .enotdir => ⟨.error .moveFailed, notes, trash⟩
    | .ok _ =>
      match mkdirRec trash actualParts with
      | none => ⟨.error .moveFailed, notes, trash⟩
      | some trash1 =>
        match takeNodeAt notes originalFilePath with
        | none => ⟨.error .moveFailed, notes, trash1⟩
        | some p =>
          match addNodeAt trash1 trashFilePath p.2 with
          | none => ⟨.error .moveFailed, p.1, trash1⟩
          | some trash2 => ⟨.ok (), p.1, trash2⟩

/-! ## Lifecycle Manager: `deleteEmptyGroup` (model.js) -/

/-- A JavaScript exception: a filesystem error carrying `code === 'ENOENT'`,
a filesystem error with another code, or a plain `Error` with a message
(whose `code` is `undefined`). -/
inductive JsError where
  | enoent
  | fsOther
  | plain (msg : String)
deriving DecidableEq

/-- The `try` body of `deleteEmptyGroup`: `readdir` the group path (throws
`ENOENT` when a path component is missing, `ENOTDIR` — a non-`ENOENT`
filesystem error — when the path or one of its components is a regular
file), throw a plain `Error` when the directory has entries, otherwise
`rmdir` it. -/
def deleteEmptyGroupTry (notesTree : FsNode) (group : String)
    (parts : List String) : Except JsError FsNode :=
  match resolvePath notesTree parts with
  | .error .enoent => .error .enoent
  | .error .enotdir => .error .fsOther
  | .ok (.file _) => .error .fsOther
  | .ok (.dir es) =>
    if es.length > 0 then
      .error (.plain ("Group \"" ++ group ++ "\" is not empty and cannot be deleted."))
    else
      match removeDirAt notesTree parts with
      | some t => .ok t
      | none => .error .fsOther

/-- `deleteEmptyGroup(group)`: reject an empty sanitized group; run the
`try` body; in the `catch`, an error whose `code` is `ENOENT` becomes the
not-found message and **any other** error — including the not-empty `Error`
thrown inside the `try` — becomes the generic failure message. -/
def deleteEmptyGroup (notesTree : FsNode) (group : String) :
    Except String FsNode :=
  let parts := (sanitizeInput "" group).safeGroupParts
  if parts.length = 0 then .error "Invalid group provided for deletion."
  else
    match deleteEmptyGroupTry notesTree group parts with
    | .ok t => .ok t
    | .error .enoent => .error ("Group \"" ++ group ++ "\" not found.")
    | .error .fsOther => .error ("Failed to delete group \"" ++ group ++ "\".")
    | .error (.plain _) => .error ("Failed to delete group \"" ++ group ++ "\".")

/-! ## Traversal Engine: `findEmptyDirsRecursive` (util.js) -/

mutual

/-- `findEmptyDirsRecursive(dirPath, baseDir, excludeTopLevelDirs)`:
collect the empty directories below a directory.  `atBase` is
`dirPath === baseDir`; `segs` the path of `dirPath` relative to the base.
After the entry scan the directory itself is appended when the scan saw no
content, it is not the base, and the final re-check (`readdir` again)
reports zero entries. -/
def findEmptyDirsRecursive : FsNode → Bool → List String → List String → List String
  | .file _, _, _, _ => []
  | .dir entries, atBase, segs, excl =>
    let scan := findEmptyDirsScan entries atBase segs excl
    if !scan.2 && !atBase then
      if entries.length = 0 then scan.1 ++ [joinPath segs] else scan.1
    else scan.1

/-- The entry loop: accumulated empty-directory paths and the `hasContent`
flag.  A file sets `hasContent`; a subdirectory that is not itself reported
empty sets it when its own `readdir` shows entries; an excluded top-level
directory is skipped. -/
def findEmptyDirsScan : List (String × FsNode) → Bool → List String → List String →
    List String × Bool
  | [], _, _, _ => ([], false)
  | (name, child) :: rest, atBase, segs, excl =>
    let acc := findEmptyDirsScan rest atBase segs excl
    match child with
    | .dir subEntries =>
      if atBase && excl.contains name then acc
      else
        let sub := findEmptyDirsRecursive (.dir subEntries) false (segs ++ [name]) excl
        let thisHas : Bool :=
          if !(sub.contains (joinPath (segs ++ [name]))) then
            decide (subEntries.length > 0)
          else false
        (sub ++ acc.1, thisHas || acc.2)
    | .file _ => (acc.1, true)

end

/-- The `emptyGroups` computation of `getStats` (stats.js):
`findEmptyDirsRecursive(notesDir, notesDir, ['trash'])`. -/
def findEmptyDirsStats (notesTree : FsNode) : List String :=
  findEmptyDirsRecursive notesTree true [] ["trash"]

mutual

/-- Definition following the specification's words, for comparison with
`findEmptyDirsRecursive`: a directory qualifies as empty when it contains
no files and every subdirectory it contains is itself empty (recursively). -/
def specEmptyDir : FsNode → Bool
  | .file _ => false
  | .dir es => specEmptyEntries es

/-- All entries are empty subdirectories (spec-side helper). -/
def specEmptyEntries : List (String × FsNode) → Bool
  | [] => true
  | (_, child) :: rest => specEmptyDir child && specEmptyEntries rest

end

/-! ## Concrete fixtures used by counterexamples and witnesses -/

/-- A concrete instance of the abstract JavaScript date parser: recognises
exactly the UTC-midnight expansion of `2024-01-01` and fails on everything
else. -/
def jsDateFix : String → Option Int := fun s =>
  if s = "2024-01-01T00:00:00.000Z" then some 1704067200000 else none

/-- A projected note whose `createdDate` is present but not parseable. -/
def badDateNote : NoteProj :=
  ⟨"t", "", "", some "not-a-date", none, "t.json"⟩

/-- A projected note with no `createdDate` at all. -/
def noDateNote : NoteProj :=
  ⟨"t", "", "", none, none, "t.json"⟩

/-- A projected note whose `createdDate` parses under `jsDateFix`. -/
def goodDateNote : NoteProj :=
  ⟨"t", "", "", some "2024-01-01T00:00:00.000Z", none, "t.json"⟩

end GeepNotes

namespace GeepNotes

/-! ## Theorems -/

/-- C1: the spec claims `findEmptyDirsRecursive` reports a directory as
empty exactly when, recursively, it holds no files and only empty
subdirectories — so a directory whose only entry is an empty subdirectory
should itself be reported.  The code's final re-check (`readdir` length 0)
defeats this: on the tree `a/b` with `b` empty, only `a/b` is reported even
though `a` satisfies the spec's recursive emptiness. -/
theorem c1_findEmptyDirs_shallow_only :
    findEmptyDirsStats (.dir [("a", .dir [("b", .dir [])])]) = ["a/b"] ∧
    specEmptyDir (.dir [("b", .dir [])]) = true ∧
    "a" ∉ findEmptyDirsStats (.dir [("a", .dir [("b", .dir [])])]) := by
  refine ⟨rfl, rfl, ?_⟩
  decide

/-- C2: the spec claims deleting a non-empty group fails with a `NotEmpty`
error distinguishable from any other failure.  In the code the not-empty
`Error` is thrown inside the `try` and caught by the function's own
`catch`, which re-throws the generic failure message — identical to the
message produced by any other non-`ENOENT` failure (here: the group path
being a file), and lacking the `is not empty` marker the HTTP layer matches
on. -/
theorem c2_deleteEmptyGroup_notEmpty_swallowed :
    deleteEmptyGroup (.dir [("g", .dir [("note.json", .file "x")])]) "g" =
      .error "Failed to delete group \"g\"." ∧
    deleteEmptyGroup (.dir [("g", .file "x")]) "g" =
      .error "Failed to delete group \"g\"." ∧
    jsIncludes "Failed to delete group \"g\"." "is not empty" = false ∧
    deleteEmptyGroup (.dir []) "g" = .error "Group \"g\" not found." ∧
    deleteEmptyGroup (.dir [("g", .dir [])]) "g" = .ok (.dir []) := by
  refine ⟨rfl, rfl, ?_, rfl, rfl⟩
  decide

/-- C3 counterexample: the claim says that when listing the trash tree no
top-level subtree is excluded.  On a trash tree holding a top-level
directory named `trash` containing `doc.json` plus a root file
`other.json`, the listing returns only `other.json`: the document inside
the top-level `trash` directory is not enumerated. -/
theorem c3_trash_excluded_in_trash_listing :
    getAllNotesFiles (.dir [])
      (.dir [("trash", .dir [("doc.json", .file "x")]), ("other.json", .file "y")])
      true = [⟨[], "other.json"⟩] := rfl

/-- Unfolding equation for the traversal's entry loop on a cons cell. -/
theorem findJsonFilesEntries_cons (name : String) (child : FsNode)
    (rest : List (String × FsNode)) (atBase : Bool) (segs : List String) :
    findJsonFilesEntries ((name, child) :: rest) atBase segs =
      (match child with
        | .dir sub =>
          if atBase && name = "trash" then []
          else findJsonFiles (.dir sub) false (segs ++ [name])
        | .file _ =>
          if extnameLower name = ".json" then [⟨segs, name⟩] else []) ++
      findJsonFilesEntries rest atBase segs := by
  cases child with
  | dir sub => rw [findJsonFilesEntries.eq_2]
  | file c => rw [findJsonFilesEntries.eq_3]

/-- Skipping of a top-level `trash` entry happens for any base directory
the traversal is started on. -/
theorem findJsonFilesEntries_skips_trash (sub : List (String × FsNode)) :
    ∀ (pre post : List (String × FsNode)) (segs : List String),
      findJsonFilesEntries (pre ++ ("trash", .dir sub) :: post) true segs =
        findJsonFilesEntries (pre ++ post) true segs := by
  intro pre
  induction pre with
  | nil =>
    intro post segs
    rw [List.nil_append, List.nil_append, findJsonFilesEntries_cons]
    simp
  | cons e rest ih =>
    intro post segs
    obtain ⟨name, child⟩ := e
    rw [List.cons_append, List.cons_append, findJsonFilesEntries_cons,
      findJsonFilesEntries_cons, ih]

/-- C3 amended: the exclusion of a top-level directory named `trash` is
unconditional in the traversal — it applies to whichever root is listed, so
also with `viewTrash = true` a top-level `trash` directory of the trash
tree is skipped and its documents contribute nothing to the listing. -/
theorem c3_trash_exclusion_unconditional (live : FsNode)
    (pre post sub : List (String × FsNode)) :
    getAllNotesFiles live (.dir (pre ++ ("trash", .dir sub) :: post)) true =
      getAllNotesFiles live (.dir (pre ++ post)) true :=
  findJsonFilesEntries_skips_trash sub pre post []

/-- C4: on a create call whose target document exists and parses, the new
version (supplied content, current timestamp) is prepended at index 0 with
all prior versions retained in order, `title`, `group` and `relativePath`
are overwritten with the freshly resolved values, and the root
`createdDate` is exactly the pre-existing document's. -/
theorem c4_prepareNoteData_update (doc : NoteDoc)
    (safeTitle finalGroupPath relativePath : String) (content : Option String)
    (now : String) :
    prepareNoteData (.ok doc) safeTitle finalGroupPath relativePath content now =
      .ok { title := safeTitle
          , group := finalGroupPath
          , relativePath := relativePath
          , createdDate := doc.createdDate
          , versions := some (⟨content.getD "", now⟩ :: (doc.versions.getD [])) } := by
  cases doc with
  | mk t g r c v => cases v <;> rfl

/-- The two output lists of `createNotesGo` partition the input list. -/
theorem createNotesGo_length (io : InputNote → Except Unit String) :
    ∀ notes : List InputNote,
      (createNotesGo io notes).1.length + (createNotesGo io notes).2.length =
        notes.length := by
  intro notes
  induction notes with
  | nil => rfl
  | cons note rest ih =>
    simp only [createNotesGo, List.length_cons]
    split
    · simp only [List.length_cons]; omega
    · split
      · simp only [List.length_cons]; omega
      · split <;> simp only [List.length_cons] <;> omega

/-- C8: `createNotes` always returns a result, whatever the outcome of each
note's filesystem work (the oracle `io` ranges over all behaviours,
including one that fails every note), and each input note lands in exactly
one of the two output lists: their lengths sum to the input length. -/
theorem c8_createNotes_accounts_all (io : InputNote → Except Unit String)
    (notes : List InputNote) :
    (createNotes io notes).processed.length + (createNotes io notes).skipped.length =
      notes.length := by
  simp only [createNotes, List.length_map]
  exact createNotesGo_length io notes

/-- C9 counterexample: the claim says every `deleteNote` call whose target
file does not exist in the live tree fails with the not-found error.  With
the live tree holding the regular file `work` and a delete of title `t` in
group `work`, the target `work/t.json` does not exist (`lookupPath` is
`none`), yet `fs.access` fails with `ENOTDIR` — not `ENOENT` — so the
`catch` raises the generic move failure instead of the not-found error.
Both trees are still left unchanged. -/
theorem c9_enotdir_not_notFound :
    deleteNote (.dir [("work", .file "junk")]) (.dir []) (some "t") (some "work") =
      ⟨.error .moveFailed, .dir [("work", .file "junk")], .dir []⟩ ∧
    lookupPath (.dir [("work", .file "junk")]) ["work", "t.json"] = none ∧
    (deleteNote (.dir [("work", .file "junk")]) (.dir []) (some "t") (some "work")).result ≠
      .error .notFound := by
  refine ⟨rfl, rfl, fun h => ?_⟩
  exact DeleteNoteError.noConfusion (Except.error.inj h)

/-- C9 amended: a `deleteNote` call whose existence check fails leaves both
trees exactly as they were — the `fs.access` check precedes the trash
`mkdir`, so no trash directory is created — and the failure reported splits
by the check's error: a missing file or missing path component (`ENOENT`)
yields the not-found error, while a path whose intermediate component is a
regular file (`ENOTDIR`) yields the generic move failure. -/
theorem c9_deleteNote_missing_no_mutation (notes trash : FsNode)
    (title group : Option String)
    (htitle : (sanitizeInput (title.getD "") (group.getD "")).safeTitle ≠ "") :
    (resolvePath notes
        (determineTargetPath notes (sanitizeInput (title.getD "") (group.getD "")).safeGroupParts ++
          [(sanitizeInput (title.getD "") (group.getD "")).safeTitle ++ ".json"]) =
        .error .enoent →
      deleteNote notes trash title group = ⟨.error .notFound, notes, trash⟩) ∧
    (resolvePath notes
        (determineTargetPath notes (sanitizeInput (title.getD "") (group.getD "")).safeGroupParts ++
          [(sanitizeInput (title.getD "") (group.getD "")).safeTitle ++ ".json"]) =
        .error .enotdir →
      deleteNote notes trash title group = ⟨.error .moveFailed, notes, trash⟩) := by
  constructor
  · intro hmissing
    simp [deleteNote, htitle, hmissing]
  · intro hnotdir
    simp [deleteNote, htitle, hnotdir]

/-- C9 amended witness: deleting `foo` from an empty live tree hits the
not-found path with both trees unchanged, and deleting through the regular
file `work` hits the generic-failure path with both trees unchanged. -/
theorem c9_witness :
    deleteNote (.dir []) (.dir []) (some "foo") none =
      ⟨.error .notFound, .dir [], .dir []⟩ ∧
    deleteNote (.dir [("work", .file "junk")]) (.dir []) (some "t") (some "work") =
      ⟨.error .moveFailed, .dir [("work", .file "junk")], .dir []⟩ := by
  constructor
  · exact (c9_deleteNote_missing_no_mutation (.dir []) (.dir []) (some "foo") none
      (by decide)).1 rfl
  · exact (c9_deleteNote_missing_no_mutation (.dir [("work", .file "junk")]) (.dir [])
      (some "t") (some "work") (by decide)).2 rfl

/-- C10: a `createdBefore` or `createdAfter` filter supplied as the empty
string (or absent) is treated as no filter at all: `parseDate` yields
`null`, no invalid-date error aborts the call, and the resulting filter
predicate is exactly the one with no date bounds. -/
theorem c10_falsy_date_filter_ignored (jsDate : String → Option Int)
    (groups : Option (List String)) (titles : Option (List String))
    (notes : List NoteProj) (cb ca : Option String)
    (hb : cb = none ∨ cb = some "") (ha : ca = none ∨ ca = some "") :
    applyFilters jsDate (some ⟨groups, cb, ca, titles⟩) notes =
      .ok (notes.filter (keepNote jsDate groups none none titles)) := by
  rcases hb with rfl | rfl <;> rcases ha with rfl | rfl <;>
    simp [applyFilters, parseDate]

/-- C5 counterexample: the claim says a note whose `createdDate` is present
but unparseable is excluded whenever a date filter is active.  With an
active `createdBefore` filter, the note whose `createdDate` is
`not-a-date` (unparseable under the date model) is nevertheless kept. -/
theorem c5_unparseable_note_kept :
    applyFilters jsDateFix (some ⟨none, some "2024-01-01", none, none⟩) [badDateNote] =
      .ok [badDateNote] := rfl

/-- C5 amended: with a date filter active, a note whose `createdDate` is
absent or empty is excluded, but a note whose `createdDate` is present and
non-empty yet unparseable bypasses the date filter entirely — it is kept or
dropped exactly as if no date bound had been supplied. -/
theorem c5_unusable_createdDate (jsDate : String → Option Int)
    (groups : Option (List String)) (bd ad : Option Int)
    (titles : Option (List String)) (note : NoteProj)
    (hactive : bd.isSome ∨ ad.isSome) :
    ((note.createdDate = none ∨ note.createdDate = some "") →
      keepNote jsDate groups bd ad titles note = false) ∧
    (∀ cd, note.createdDate = some cd → cd ≠ "" → jsDate cd = none →
      keepNote jsDate groups bd ad titles note =
        keepNote jsDate groups none none titles note) := by
  constructor
  · intro hdate
    have hb : (bd.isNone && ad.isNone) = false := by
      rcases hactive with h | h <;> cases bd <;> cases ad <;> simp_all
    rcases hdate with h | h <;> simp [keepNote, h, hb]
  · intro cd hcd hne hjs
    simp [keepNote, hcd, hne, hjs]

/-- C5 amended witness: under an active `createdBefore` bound, the note
with no `createdDate` is dropped, and the note with the unparseable
`createdDate` behaves exactly as with no date bounds. -/
theorem c5_witness :
    keepNote jsDateFix none (some 0) none none noDateNote = false ∧
    keepNote jsDateFix none (some 0) none none badDateNote =
      keepNote jsDateFix none none none none badDateNote := by
  constructor
  · exact (c5_unusable_createdDate jsDateFix none (some 0) none none noDateNote
      (Or.inl rfl)).1 (Or.inl rfl)
  · exact (c5_unusable_createdDate jsDateFix none (some 0) none none badDateNote
      (Or.inl rfl)).2 "not-a-date" rfl (by decide) rfl

/-- C6: with parseable date filters, the listing filters by `keepNote`, and
among notes with a valid `createdDate` the `createdBefore` bound excludes
exactly dates ≥ the bound, the `createdAfter` bound excludes exactly dates
≤ the bound (both exclusive), conjunctively with each other and with the
remaining filters. -/
theorem c6_exclusive_date_bounds (jsDate : String → Option Int)
    (f : NoteFilters) (notes : List NoteProj) (bd ad : Option Int)
    (hb : parseDate jsDate f.createdBefore = .ok bd)
    (ha : parseDate jsDate f.createdAfter = .ok ad) :
    applyFilters jsDate (some f) notes =
      .ok (notes.filter (keepNote jsDate f.groups bd ad f.titles)) ∧
    ∀ (note : NoteProj) (cd : String) (t : Int), note.createdDate = some cd →
      cd ≠ "" → jsDate cd = some t →
      keepNote jsDate f.groups bd ad f.titles note =
        (bd.all (fun b => decide (t < b)) && ad.all (fun a => decide (a < t)) &&
          keepNote jsDate f.groups none none f.titles note) := by
  constructor
  · simp [applyFilters, hb, ha]
  · intro note cd t hcd hne hjs
    have key : ∀ K k1 k2 T : Bool,
        (if (if K then (if k1 then k2 else false) else false) = true then T else false) =
          ((k1 && k2) && if (if K then true else false) = true then T else false) := by
      decide
    cases bd <;> cases ad <;>
      simp [keepNote, hcd, hne, hjs, key, Bool.and_comm, Bool.and_left_comm,
        Bool.and_assoc]

/-- C6 witness: bounds parsed from `2024-01-01`, evaluated on a note whose
`createdDate` is exactly the bound (excluded, since the bound is
exclusive). -/
theorem c6_witness :
    applyFilters jsDateFix (some ⟨none, some "2024-01-01", none, none⟩) [goodDateNote] =
      .ok ([goodDateNote].filter
        (keepNote jsDateFix none (some 1704067200000) none none)) ∧
    keepNote jsDateFix none (some 1704067200000) none none goodDateNote =
      ((some (1704067200000 : Int)).all (fun b => decide ((1704067200000 : Int) < b)) &&
        (none : Option Int).all (fun a => decide (a < (1704067200000 : Int))) &&
        keepNote jsDateFix none none none none goodDateNote) := by
  have h := c6_exclusive_date_bounds jsDateFix ⟨none, some "2024-01-01", none, none⟩
    [goodDateNote] (some 1704067200000) none rfl rfl
  exact ⟨h.1, h.2 goodDateNote "2024-01-01T00:00:00.000Z" 1704067200000 rfl
    (by decide) rfl⟩

/-! Helper lemmas about directory-entry lookup and replacement, used for the
case-reuse property of `determineTargetPath`. -/

/-- A successful exact-name lookup returns a member of the list. -/
theorem lookupEntry_mem {es : List (String × FsNode)} {n : String} {x : FsNode}
    (h : lookupEntry es n = some x) : (n, x) ∈ es := by
  induction es with
  | nil => simp [lookupEntry] at h
  | cons e rest ih =>
    by_cases he : e.1 = n
    · simp only [lookupEntry, if_pos he] at h
      obtain rfl := Option.some.inj h
      subst he
      exact List.mem_cons_self _ _
    · simp only [lookupEntry, if_neg he] at h
      exact List.mem_cons_of_mem _ (ih h)

/-- An exact-name lookup cannot fail when a member with that name exists. -/
theorem lookupEntry_ne_none_of_mem {es : List (String × FsNode)} {n : String}
    {x : FsNode} (h : (n, x) ∈ es) : lookupEntry es n ≠ none := by
  induction es with
  | nil => simp at h
  | cons e rest ih =>
    rcases List.mem_cons.mp h with rfl | hmem
    · simp [lookupEntry]
    · by_cases he : e.1 = n
      · simp [lookupEntry, he]
      · simp only [lookupEntry, if_neg he]
        exact ih hmem

/-- Looking up the name just replaced yields the replacement. -/
theorem lookupEntry_replaceEntry_self {es : List (String × FsNode)} {n : String}
    {c : FsNode} (h : lookupEntry es n = some c) (x : FsNode) :
    lookupEntry (replaceEntry es n x) n = some x := by
  induction es with
  | nil => simp [lookupEntry] at h
  | cons e rest ih =>
    by_cases he : e.1 = n
    · simp [replaceEntry, lookupEntry, he]
    · simp only [replaceEntry, if_neg he, lookupEntry]
      simp only [lookupEntry, if_neg he] at h
      exact ih h

/-- Replacing an entry by the value it already holds is the identity. -/
theorem replaceEntry_self {es : List (String × FsNode)} {n : String} {x : FsNode}
    (h : lookupEntry es n = some x) : replaceEntry es n x = es := by
  induction es with
  | nil => simp [replaceEntry]
  | cons e rest ih =>
    obtain ⟨e1, e2⟩ := e
    by_cases he : e1 = n
    · simp only [lookupEntry, if_pos he] at h
      obtain rfl := Option.some.inj h
      simp [replaceEntry, he]
    · simp only [lookupEntry, if_neg he] at h
      simp [replaceEntry, he, ih h]

/-- An exact-name lookup that fails on the left part of an append continues
on the right part. -/
theorem lookupEntry_append {es l : List (String × FsNode)} {n : String}
    (h : lookupEntry es n = none) :
    lookupEntry (es ++ l) n = lookupEntry l n := by
  induction es with
  | nil => simp
  | cons e rest ih =>
    by_cases he : e.1 = n
    · simp [lookupEntry, he] at h
    · simp only [lookupEntry, if_neg he] at h
      simp only [List.cons_append, lookupEntry, if_neg he]
      exact ih h

/-- The case-insensitive directory search only inspects names and
directory-ness, so replacing an entry's node by another directory node
leaves it unchanged. -/
theorem findDirCI_replace {es : List (String × FsNode)} {n : String}
    {c x : FsNode} (h : lookupEntry es n = some c) (hdir : c.isDir = x.isDir)
    (p : String) :
    findDirCaseInsensitive (replaceEntry es n x) p = findDirCaseInsensitive es p := by
  induction es with
  | nil => simp [replaceEntry]
  | cons e rest ih =>
    by_cases he : e.1 = n
    · simp only [lookupEntry, if_pos he] at h
      obtain rfl := Option.some.inj h
      simp only [replaceEntry, if_pos he, findDirCaseInsensitive, List.find?, ← hdir]
      cases hp : (e.2.isDir && decide (toLowerStr e.1 = toLowerStr p)) <;> simp [hp]
    · simp only [lookupEntry, if_neg he] at h
      simp only [replaceEntry, if_neg he, findDirCaseInsensitive, List.find?]
      cases hp : (e.2.isDir && decide (toLowerStr e.1 = toLowerStr p))
      · simp only [hp]
        simpa only [findDirCaseInsensitive] using ih h
      · simp [hp]

/-- The case-insensitive search depends on the segment only through its
lower-cased form. -/
theorem findDirCI_toLower_congr {a b : String} (h : toLowerStr a = toLowerStr b)
    (es : List (String × FsNode)) :
    findDirCaseInsensitive es a = findDirCaseInsensitive es b := by
  simp only [findDirCaseInsensitive, h]

/-- What a successful case-insensitive search guarantees. -/
theorem findDirCI_some {es : List (String × FsNode)} {a n : String}
    (h : findDirCaseInsensitive es a = some n) :
    ∃ x, (n, x) ∈ es ∧ x.isDir = true ∧ toLowerStr n = toLowerStr a := by
  simp only [findDirCaseInsensitive] at h
  cases hf : es.find? (fun e => e.2.isDir && toLowerStr e.1 = toLowerStr a) with
  | none => rw [hf] at h; simp at h
  | some e =>
    rw [hf] at h
    obtain rfl := Option.some.inj h
    have hp := List.find?_some hf
    have hm := List.mem_of_find?_eq_some hf
    simp only [Bool.and_eq_true, decide_eq_true_eq] at hp
    exact ⟨e.2, by simpa using hm, hp.1, hp.2⟩

/-- A failed case-insensitive search excludes any matching directory entry. -/
theorem findDirCI_none {es : List (String × FsNode)} {a : String}
    (h : findDirCaseInsensitive es a = none) :
    ∀ e ∈ es, ¬(e.2.isDir = true ∧ toLowerStr e.1 = toLowerStr a) := by
  intro e hmem hcontra
  simp only [findDirCaseInsensitive] at h
  cases hf : es.find? (fun e => e.2.isDir && toLowerStr e.1 = toLowerStr a) with
  | some e' => rw [hf] at h; simp at h
  | none =>
    have := List.find?_eq_none.mp hf e hmem
    simp only [Bool.and_eq_true, decide_eq_true_eq] at this
    exact this ⟨hcontra.1, hcontra.2⟩

/-- Appending a matching directory entry to a list on which the search
failed makes the search return the appended name. -/
theorem findDirCI_append {es : List (String × FsNode)} {b : String}
    (h : findDirCaseInsensitive es b = none) {a : String} {x : FsNode}
    (hx : x.isDir = true) (hab : toLowerStr a = toLowerStr b) :
    findDirCaseInsensitive (es ++ [(a, x)]) b = some a := by
  induction es with
  | nil => simp [findDirCaseInsensitive, List.find?, hx, hab]
  | cons e rest ih =>
    simp only [findDirCaseInsensitive, List.find?] at h ⊢
    cases hp : (e.2.isDir && toLowerStr e.1 = toLowerStr b : Bool)
    · rw [hp] at h
      simpa only [findDirCaseInsensitive] using
        ih (by simpa only [findDirCaseInsensitive] using h)
    · rw [hp] at h; simp at h

/-- A file can never be turned into the directory chain. -/
theorem mkdirRec_file (c : String) (l : List String) :
    mkdirRec (.file c) l = none := by
  cases l <;> rfl

/-- A successfully created chain rooted in a directory is a directory. -/
theorem mkdirRec_isDir {t t' : FsNode} {l : List String}
    (h : mkdirRec t l = some t') : t'.isDir = true := by
  cases t with
  | file c => rw [mkdirRec_file] at h; exact absurd h (by simp)
  | dir es =>
    cases l with
    | nil =>
      simp only [mkdirRec] at h
      obtain rfl := Option.some.inj h
      rfl
    | cons name rest =>
      simp only [mkdirRec] at h
      cases hle : lookupEntry es name with
      | some child =>
        simp only [hle] at h
        cases hm : mkdirRec child rest with
        | none => simp only [hm] at h; exact Option.noConfusion h
        | some child' =>
          simp only [hm] at h
          obtain rfl := Option.some.inj h
          rfl
      | none =>
        simp only [hle] at h
        cases hm : mkdirRec (.dir []) rest with
        | none => simp only [hm] at h; exact Option.noConfusion h
        | some child' =>
          simp only [hm] at h
          obtain rfl := Option.some.inj h
          rfl

/-- Resolution against a missing directory keeps every sanitized segment. -/
theorem resolveParts_none : ∀ l : List String, resolveParts none l = l
  | [] => rfl
  | part :: rest => by
    simp only [resolveParts, Option.getD]
    exact congrArg (part :: ·) (resolveParts_none rest)

/-- Resolution against an empty directory keeps every sanitized segment. -/
theorem resolveParts_emptyDir : ∀ l : List String,
    resolveParts (some (.dir [])) l = l
  | [] => rfl
  | part :: rest => by
    simp only [resolveParts, findDirCaseInsensitive, List.find?, Option.getD,
      lookupEntry]
    exact congrArg (part :: ·) (resolveParts_none rest)

/-- Core of C7: once the directory chain resolved for one segment sequence
has been created, resolving any sequence that is equal up to letter case
yields the same chain, and re-creating it changes nothing. -/
theorem resolve_stable_after_mkdir :
    ∀ (p1 p2 : List String) (t t' : FsNode),
      p1.map toLowerStr = p2.map toLowerStr →
      mkdirRec t (resolveParts (some t) p1) = some t' →
      resolveParts (some t') p2 = resolveParts (some t) p1 ∧
        mkdirRec t' (resolveParts (some t') p2) = some t' := by
  intro p1
  induction p1 with
  | nil =>
    intro p2 t t' hmap hmk
    have hp2 : p2 = [] := by
      cases p2 with
      | nil => rfl
      | cons b p2' => simp at hmap
    subst hp2
    cases t with
    | file c => rw [show resolveParts (some (.file c)) [] = [] from rfl,
        mkdirRec_file] at hmk; exact absurd hmk (by simp)
    | dir es =>
      simp only [resolveParts, mkdirRec] at hmk
      obtain rfl := Option.some.inj hmk
      exact ⟨rfl, by simp [resolveParts, mkdirRec]⟩
  | cons a p1' ih =>
    intro p2 t t' hmap hmk
    obtain ⟨b, p2', rfl⟩ : ∃ b p2', p2 = b :: p2' := by
      cases p2 with
      | nil => simp at hmap
      | cons b p2' => exact ⟨b, p2', rfl⟩
    simp only [List.map_cons, List.cons.injEq] at hmap
    obtain ⟨hab, hmap'⟩ := hmap
    cases t with
    | file c =>
      rw [show resolveParts (some (.file c)) (a :: p1') =
        a :: resolveParts none p1' from rfl, mkdirRec_file] at hmk
      exact absurd hmk (by simp)
    | dir es =>
      simp only [resolveParts] at hmk
      cases hfd : findDirCaseInsensitive es a with
      | some u0 =>
        simp only [hfd, Option.getD_some] at hmk
        obtain ⟨x0, hmem0, hx0dir, hlow0⟩ := findDirCI_some hfd
        cases hle : lookupEntry es u0 with
        | none => exact absurd hle (lookupEntry_ne_none_of_mem hmem0)
        | some child =>
          simp only [mkdirRec, hle] at hmk
          cases hmc : mkdirRec child (resolveParts (some child) p1') with
          | none => simp only [hmc] at hmk; exact Option.noConfusion hmk
          | some c' =>
            simp only [hmc] at hmk
            obtain rfl := Option.some.inj hmk
            have hchilddir : child.isDir = true := by
              cases child with
              | file cc => rw [mkdirRec_file] at hmc; exact absurd hmc (by simp)
              | dir ces => rfl
            have hc'dir : c'.isDir = true := mkdirRec_isDir hmc
            obtain ⟨ih1, ih2⟩ := ih p2' child c' hmap' hmc
            have h1 : findDirCaseInsensitive (replaceEntry es u0 c') b = some u0 := by
              rw [findDirCI_replace hle (hchilddir.trans hc'dir.symm),
                ← findDirCI_toLower_congr hab es, hfd]
            have h2 : lookupEntry (replaceEntry es u0 c') u0 = some c' :=
              lookupEntry_replaceEntry_self hle c'
            constructor
            · simp only [resolveParts, hfd, h1, Option.getD_some, hle, h2]
              rw [ih1]
            · simp only [resolveParts, h1, Option.getD_some, h2, mkdirRec]
              simp only [ih2]
              rw [replaceEntry_self h2]
      | none =>
        simp only [hfd, Option.getD_none] at hmk
        cases hle : lookupEntry es a with
        | some child =>
          cases child with
          | dir ces =>
            exact absurd ⟨rfl, rfl⟩ (findDirCI_none hfd (a, .dir ces) (lookupEntry_mem hle))
          | file cc =>
            simp only [mkdirRec, hle, mkdirRec_file] at hmk
            exact Option.noConfusion hmk
        | none =>
          simp only [mkdirRec, hle, resolveParts_none] at hmk
          cases hmc : mkdirRec (.dir []) p1' with
          | none => simp only [hmc] at hmk; exact Option.noConfusion hmk
          | some c' =>
            simp only [hmc] at hmk
            obtain rfl := Option.some.inj hmk
            have hc'dir : c'.isDir = true := mkdirRec_isDir hmc
            obtain ⟨ih1, ih2⟩ := ih p2' (.dir []) c' hmap'
              (by rw [resolveParts_emptyDir]; exact hmc)
            rw [resolveParts_emptyDir] at ih1
            have h1 : findDirCaseInsensitive (es ++ [(a, c')]) b = some a :=
              findDirCI_append (by rw [← findDirCI_toLower_congr hab es]; exact hfd)
                hc'dir hab
            have h2 : lookupEntry (es ++ [(a, c')]) a = some c' := by
              rw [lookupEntry_append hle]
              simp [lookupEntry]
            constructor
            · simp only [resolveParts, hfd, h1, Option.getD_some, Option.getD_none,
                hle, h2]
              rw [ih1, resolveParts_none]
            · simp only [resolveParts, h1, Option.getD_some, h2, mkdirRec]
              simp only [ih2]
              rw [replaceEntry_self h2]

/-- C7: after a first create call has resolved a group's sanitized segments
and created the resulting directory chain, any second group whose sanitized
segments agree up to letter case resolves to exactly the same physical
chain (original casing preserved), and re-creating it leaves the tree
unchanged — no case-variant duplicate directory appears. -/
theorem c7_case_insensitive_reuse (t t' : FsNode) (title1 g1 title2 g2 : String)
    (hcase : ((sanitizeInput title1 g1).safeGroupParts).map toLowerStr =
      ((sanitizeInput title2 g2).safeGroupParts).map toLowerStr)
    (hmk : mkdirRec t
      (determineTargetPath t (sanitizeInput title1 g1).safeGroupParts) = some t') :
    determineTargetPath t' (sanitizeInput title2 g2).safeGroupParts =
      determineTargetPath t (sanitizeInput title1 g1).safeGroupParts ∧
    mkdirRec t'
      (determineTargetPath t' (sanitizeInput title2 g2).safeGroupParts) = some t' :=
  resolve_stable_after_mkdir _ _ t t' hcase hmk

/-- C7 witness: creating group `Work` in an empty tree and then resolving
group `work` reuses the directory `Work`, and creating again is a no-op. -/
theorem c7_witness :
    determineTargetPath (.dir [("Work", .dir [])])
        (sanitizeInput "n" "work").safeGroupParts =
      determineTargetPath (.dir []) (sanitizeInput "n" "Work").safeGroupParts ∧
    mkdirRec (.dir [("Work", .dir [])])
        (determineTargetPath (.dir [("Work", .dir [])])
          (sanitizeInput "n" "work").safeGroupParts) =
      some (.dir [("Work", .dir [])]) :=
  c7_case_insensitive_reuse (.dir []) (.dir [("Work", .dir [])]) "n" "Work" "n" "work"
    rfl rfl

/-- C10 witness: both falsy forms at once, on a note with no
`createdDate`, which survives the listing. -/
theorem c10_witness :
    applyFilters jsDateFix (some ⟨none, none, some "", none⟩) [noDateNote] =
      .ok ([noDateNote].filter (keepNote jsDateFix none none none none)) :=
  c10_falsy_date_filter_ignored jsDateFix none none [noDateNote] none (some "")
    (Or.inl rfl) (Or.inr rfl)

end GeepNotes
